import Mathlib

/-!
Shallow embedding of the `tower_allowed_hosts` crate: the host-resolution and
allow-list matching engine.  Definitions are translated from `src/service.rs`,
`src/matcher.rs`, `src/error.rs` and `src/lib.rs`; the parts of the `http`
crate the code relies on (`HeaderValue::to_str`, `Uri` parsing) are modelled
over ASCII strings following that crate's grammar.
-/

namespace TowerAllowedHosts

/-! ## Basic string utilities (models of Rust `str` operations) -/

/-- Model of Rust `str::split(c)`: splitting the empty string yields `[""]`,
and a trailing separator yields a trailing empty piece. -/
def splitChar (c : Char) : List Char → List (List Char)
  | [] => [[]]
  | x :: xs =>
    if x = c then [] :: splitChar c xs
    else
      match splitChar c xs with
      | [] => [[x]]
      | y :: ys => (x :: y) :: ys

/-- Splitting never returns the empty list. -/
theorem splitChar_ne_nil (c : Char) (l : List Char) : splitChar c l ≠ [] := by
  induction l with
  | nil => simp [splitChar]
  | cons x xs ih =>
    simp only [splitChar]
    split
    · simp
    · cases h : splitChar c xs with
      | nil => simp
      | cons y ys => simp [h]

/-- Split a string on a character, Rust `str::split` semantics. -/
def sSplit (s : String) (c : Char) : List String :=
  (splitChar c s.toList).map String.mk

theorem sSplit_ne_nil (s : String) (c : Char) : sSplit s c ≠ [] := by
  simp only [sSplit, ne_eq, List.map_eq_nil_iff]
  exact splitChar_ne_nil c s.toList

/-- Model of Rust `str::split_once(c)`: split at the first occurrence of `c`. -/
def splitOnceAux (c : Char) : List Char → Option (List Char × List Char)
  | [] => none
  | x :: xs =>
    if x = c then some ([], xs)
    else (splitOnceAux c xs).map (fun p => (x :: p.1, p.2))

def splitOnce (s : String) (c : Char) : Option (String × String) :=
  (splitOnceAux c s.toList).map (fun p => (String.mk p.1, String.mk p.2))

/-- ASCII whitespace test; header values are ASCII so this coincides with
Rust `char::is_whitespace` on the relevant inputs. -/
def isWs (c : Char) : Bool :=
  c == ' ' || c == '\t' || c == '\n' || c == '\r'

/-- Model of Rust `str::trim`. -/
def sTrim (s : String) : String :=
  String.mk (((s.toList.dropWhile isWs).reverse.dropWhile isWs).reverse)

/-- Model of Rust `str::trim_matches('"')`: strip all leading and trailing
double quotes. -/
def trimQuotes (s : String) : String :=
  String.mk (((s.toList.dropWhile (· == '"')).reverse.dropWhile (· == '"')).reverse)

/-- Lowercase a string (ASCII); model of `str::to_lowercase` /
`eq_ignore_ascii_case` comparisons. -/
def sLower (s : String) : String :=
  String.mk (s.toList.map Char.toLower)

/-- Does the string contain the character? Model of Rust `str::contains(c)`. -/
def sContains (s : String) (c : Char) : Bool :=
  s.toList.any (· == c)

/-! ## Header model

A header value is a raw byte list (`http::HeaderValue`); a header map is the
ordered list of `(lowercased-name, value-bytes)` pairs.  `HeaderValue::to_str`
succeeds exactly when every byte is visible ASCII or a tab. -/

abbrev HeaderValue : Type := List Nat

abbrev HeaderMap : Type := List (String × List Nat)

/-- Model of `http::HeaderValue::to_str`: succeeds iff every byte is visible
ASCII (32..=126) or a horizontal tab. -/
def headerValueToStr (v : List Nat) : Option String :=
  if v.all (fun b => (32 ≤ b && b < 127) || b == 9) then
    some (String.mk (v.map Char.ofNat))
  else
    none

/-- Model of `HeaderMap::get_all(name)`: all values stored under the
(case-insensitively compared) name, in insertion order. -/
def getAll (headers : HeaderMap) (name : String) : List (List Nat) :=
  (headers.filter (fun h => sLower h.1 == sLower name)).map (·.2)

/-- Model of `HeaderMap::get(name)`: the first value under the name. -/
def getFirst (headers : HeaderMap) (name : String) : Option (List Nat) :=
  (getAll headers name).head?

/-- Byte list of an ASCII string, for building concrete header values. -/
def strBytes (s : String) : List Nat :=
  s.toList.map Char.toNat

/-! ## URI model

Model of `http::Uri` parsing (`Uri::from_str`) restricted to ASCII input,
which is all a header value can contain.  The `http` crate parses, in order:
a leading `/` or lone `*` as a path-only / star form; an optional scheme
terminated by `://`; then an authority running up to the first `/`, `?` or
`#`; when no scheme is present the entire string must be the authority. -/

structure Uri where
  scheme : Option String
  authority : Option String
  /-- raw path data; empty when the URI has no path component -/
  path : String
  query : Option String
deriving DecidableEq, Repr

/-- Model of `http::Uri::path`: empty path data displays as "/". -/
def uriPath (u : Uri) : String :=
  if u.path = "" then "/" else u.path

/-- Model of `http::Uri::query`. -/
def uriQuery (u : Uri) : Option String :=
  u.query

/-- Scheme characters: alphanumerics and `+`, `-`, `.`. -/
def isSchemeChar (c : Char) : Bool :=
  c.isAlphanum || c == '+' || c == '-' || c == '.'

/-- Authority characters accepted by `http`'s authority table
(alphanumerics and `! $ % & ' ( ) * + , - . : ; = @ [ ] _ ~`). -/
def isAuthorityChar (c : Char) : Bool :=
  c.isAlphanum ||
    [0x21, 0x24, 0x25, 0x26, 0x27, 0x28, 0x29, 0x2A, 0x2B, 0x2C, 0x2D, 0x2E,
      0x3A, 0x3B, 0x3D, 0x40, 0x5B, 0x5D, 0x5F, 0x7E].contains c.toNat

/-- Path/query characters accepted by `http` (printable ASCII minus
`"` `<` `>` `` ` `` and braces; `?` and `#` are consumed by the splitter). -/
def isPathQueryChar (c : Char) : Bool :=
  let n := c.toNat
  (0x21 ≤ n && n ≤ 0x7E) && n != 0x22 && n != 0x3C && n != 0x3E &&
    n != 0x60 && n != 0x7B && n != 0x7D

/-- Is the character an authority section delimiter (`/`, `?`, `#`)? -/
def isAuthorityEnd (c : Char) : Bool :=
  c == '/' || c == '?' || c == '#'

/-- Parse a path-and-query section: fragment (after `#`) is dropped, the
first `?` separates path from query, characters are validated. -/
def parsePathQuery (cs : List Char) : Option (String × Option String) :=
  let beforeFrag := cs.takeWhile (fun c => !(c == '#'))
  let path := beforeFrag.takeWhile (fun c => !(c == '?'))
  let rest := beforeFrag.drop path.length
  let query : Option (List Char) :=
    match rest with
    | [] => none
    | _ :: qs => some qs
  if path.all isPathQueryChar && (query.getD []).all isPathQueryChar then
    some (String.mk path, query.map String.mk)
  else
    none

/-- Detect a scheme: a nonempty run of scheme characters followed by `://`. -/
def findScheme (cs : List Char) : Option (String × List Char) :=
  let pre := cs.takeWhile isSchemeChar
  if pre.isEmpty then none
  else
    match cs.drop pre.length with
    | ':' :: '/' :: '/' :: rest => some (String.mk pre, rest)
    | _ => none

/-- Model of `http::Uri::from_str` on ASCII strings. -/
def parseUri (s : String) : Option Uri :=
  let cs := s.toList
  match cs with
  | [] => none
  | '/' :: _ =>
    (parsePathQuery cs).map (fun pq => ⟨none, none, pq.1, pq.2⟩)
  | ['*'] => some ⟨none, none, "*", none⟩
  | _ =>
    match findScheme cs with
    | some (scheme, rest) =>
      let auth := rest.takeWhile (fun c => !isAuthorityEnd c)
      let rest2 := rest.drop auth.length
      if auth.isEmpty || !auth.all isAuthorityChar then none
      else
        match rest2 with
        | [] => some ⟨some scheme, some (String.mk auth), "", none⟩
        | _ =>
          (parsePathQuery rest2).map
            (fun pq => ⟨some scheme, some (String.mk auth), pq.1, pq.2⟩)
    | none =>
      -- no scheme: the whole string must be a valid authority
      let auth := cs.takeWhile (fun c => !isAuthorityEnd c)
      if auth.length = cs.length && auth.all isAuthorityChar then
        some ⟨none, some (String.mk auth), "", none⟩
      else
        none

/-! ## Errors (`src/error.rs`, plus `FailedToResolveHost` which `service.rs`
raises when no host can be resolved) -/

inductive Error where
  | HostNotAllowed (host : String)
  | InvalidForwardedHeader
  | InvalidHost
  | MissingHost
  | MultipleHostHeader
  | MissingAuthority
  | MismatchAuthorityHost
  | UnsupportedHttpVersion
  | FailedToResolveHost
deriving DecidableEq, Repr

/-! ## Matchers (`src/matcher.rs`)

The Rust `Matcher` / `KeyValueMatcher` traits are capability interfaces, so a
matcher is modelled as an arbitrary boolean predicate; the built-in
implementations from `matcher.rs` follow. -/

/-- The `Matcher` trait: `matches_value(&self, value: &str) -> bool`. -/
abbrev ValueMatcher : Type := String → Bool

/-- The `KeyValueMatcher` trait: `matches_key_value(&self, values:
&HashMap<String, String>) -> bool`, over the entry's key/value pairs. -/
abbrev KVMatcher : Type := List (String × String) → Bool

/-- Translation of `impl Matcher for Any`. -/
def anyValue : ValueMatcher := fun _ => true

/-- Translation of `impl KeyValueMatcher for Any`. -/
def anyKeyValue : KVMatcher := fun _ => true

/-- Translation of `impl Matcher for String` / `&str`: case-sensitive equality. -/
def exactValue (s : String) : ValueMatcher := fun v => s == v

/-- Translation of `impl Matcher for ()`: never matches. -/
def unitValue : ValueMatcher := fun _ => false

/-- Translation of `impl KeyValueMatcher for ()`: never matches. -/
def unitKeyValue : KVMatcher := fun _ => false

/-- Translation of `impl Matcher for And<L, R>`. -/
def andValue (l r : ValueMatcher) : ValueMatcher := fun v => l v && r v

/-- Translation of `impl Matcher for Or<L, R>`. -/
def orValue (l r : ValueMatcher) : ValueMatcher := fun v => l v || r v

/-- Translation of `impl KeyValueMatcher for And<L, R>`. -/
def andKeyValue (l r : KVMatcher) : KVMatcher := fun m => l m && r m

/-- Translation of `impl KeyValueMatcher for Or<L, R>`. -/
def orKeyValue (l r : KVMatcher) : KVMatcher := fun m => l m || r m

/-- Translation of `impl Matcher for Option<M>`: absent matcher never matches. -/
def optionValue (m : Option ValueMatcher) : ValueMatcher :=
  fun v =>
    match m with
    | some matcher => matcher v
    | none => false

/-- Translation of `impl KeyValueMatcher for Option<M>`. -/
def optionKeyValue (m : Option KVMatcher) : KVMatcher :=
  fun vs =>
    match m with
    | some matcher => matcher vs
    | none => false

/-- Translation of `impl KeyValueMatcher for (S, M)`: some entry's key matches the key
matcher and that entry's value matches the value matcher. -/
def pairKeyValue (km vm : ValueMatcher) : KVMatcher :=
  fun values => values.any (fun kv => km kv.1 && vm kv.2)

/-! ## Extraction (`src/service.rs`) -/

/-- Layer configuration (`AllowedHostLayer<M>` fields; the cache is carried
separately as mutable state). -/
structure Layer where
  matchers : List ValueMatcher
  use_forwarded : Bool
  use_x_forwarded_host : Bool
  reject_multiple_hosts : Bool

/-- Translation of `validate_and_parse_hosts`: take the first obtained host (rejecting
multiples when configured), parse it as a URI, and accept it only when it is
a bare authority: no real path, no query, no scheme, no user-info `@`. -/
def validate_and_parse_hosts (obtained_hosts : List String)
    (reject_multiple : Bool) : Option String :=
  match obtained_hosts with
  | [] => none
  | first_host :: rest =>
    if reject_multiple && !rest.isEmpty then none
    else
      match parseUri first_host with
      | none => none
      | some uri =>
        if (uriPath uri != "/" && !(uriPath uri == "")) ||
            (uriQuery uri).isSome || uri.scheme.isSome then none
        else
          match uri.authority with
          | none => none
          | some authority =>
            if sContains authority '@' then none
            else some authority

/-- The `host` values found in one `Forwarded` header string: split on `,`
into entries, each entry on `;` into parts, keep `key=value` parts whose
trimmed key is `host` (ASCII case-insensitive), with value trimmed and
quote-stripped. -/
def forwardedHostsOfStr (s : String) : List String :=
  (sSplit s ',').flatMap (fun header =>
    (sSplit header ';').filterMap (fun part =>
      match splitOnce part '=' with
      | some (key, value) =>
        if sLower (sTrim key) == "host" then
          some (trimQuotes (sTrim value))
        else none
      | none => none))

/-- Decode every header value; the Rust loops abort the whole extractor with
`None` (via `to_str().ok()?`) on the first undecodable value. -/
def decodeAll : List (List Nat) → Option (List String)
  | [] => some []
  | v :: rest =>
    match headerValueToStr v with
    | none => none
    | some s => (decodeAll rest).map (fun ss => s :: ss)

/-- Translation of `extract_from_forwarded`. -/
def extract_from_forwarded (headers : HeaderMap) (reject_multiple : Bool) :
    Option String :=
  match decodeAll (getAll headers "forwarded") with
  | none => none
  | some strs =>
    validate_and_parse_hosts (strs.flatMap forwardedHostsOfStr) reject_multiple

/-- The comma-separated, trimmed host values of one header string
(`header_str.split(',').map(|s| s.trim())`). -/
def hostListOfStr (s : String) : List String :=
  (sSplit s ',').map sTrim

/-- Translation of `extract_from_x_forwarded_host`. -/
def extract_from_x_forwarded_host (headers : HeaderMap)
    (reject_multiple : Bool) : Option String :=
  match decodeAll (getAll headers "x-forwarded-host") with
  | none => none
  | some strs =>
    validate_and_parse_hosts (strs.flatMap hostListOfStr) reject_multiple

/-- Translation of `extract_from_host`. -/
def extract_from_host (headers : HeaderMap) (reject_multiple : Bool) :
    Option String :=
  match decodeAll (getAll headers "host") with
  | none => none
  | some strs =>
    validate_and_parse_hosts (strs.flatMap hostListOfStr) reject_multiple

/-- Translation of `get_authority`: `Forwarded` (when enabled), then `X-Forwarded-Host`
(when enabled), then `Host`. -/
def get_authority (headers : HeaderMap) (layer : Layer) : Option String :=
  match (if layer.use_forwarded then
      extract_from_forwarded headers layer.reject_multiple_hosts
    else none) with
  | some authority => some authority
  | none =>
    match (if layer.use_x_forwarded_host then
        extract_from_x_forwarded_host headers layer.reject_multiple_hosts
      else none) with
    | some authority => some authority
    | none => extract_from_host headers layer.reject_multiple_hosts

/-! ## LRU decision cache (`lru::LruCache<String, bool>` as used by
`service.rs`; most-recently-used entry first) -/

/-- Model of `LruCache::get`: on a hit, return the value and promote the entry to the
front; on a miss, leave the cache unchanged. -/
def lruGet (entries : List (String × Bool)) (k : String) :
    Option Bool × List (String × Bool) :=
  match entries.find? (fun e => e.1 == k) with
  | some e => (some e.2, (k, e.2) :: entries.filter (fun e2 => !(e2.1 == k)))
  | none => (none, entries)

/-- Model of `LruCache::put`: insert or update at the front, evicting beyond the
capacity. -/
def lruPut (cap : Nat) (entries : List (String × Bool)) (k : String)
    (v : Bool) : List (String × Bool) :=
  ((k, v) :: entries.filter (fun e => !(e.1 == k))).take cap

/-- Cache state: capacity together with the entry list, or `none` when the
cache feature is disabled. -/
abbrev CacheState : Type := Option (Nat × List (String × Bool))

/-! ## The service `call` (`AllowedHost::call` plus `AllowedHostFuture::poll`) -/

/-- A request, reduced to what `call` inspects: its headers. -/
structure Request where
  headers : HeaderMap

/-- Observable outcome of one `call`: the `Host` extension inserted into the
request (if any), the future's result (`Ok` means the inner service's
response is forwarded), and the cache state afterwards. -/
structure CallTrace where
  extensionHost : Option String
  result : Except Error String
  cache : CacheState

/-- One service call: resolve the authority, consult the cache, otherwise
evaluate the matcher list (`any`), insert the `Host` extension when allowed,
record the decision in the cache, and produce the future's outcome
(`HostNotAllowed` when blocked, `FailedToResolveHost` when unresolved). -/
def call (layer : Layer) (cache : CacheState) (req : Request) : CallTrace :=
  match get_authority req.headers layer with
  | some host_val =>
    match cache with
    | some (cap, entries) =>
      match lruGet entries host_val with
      | (some host_allowed, entries2) =>
        { extensionHost := if host_allowed then some host_val else none
          result :=
            if host_allowed then Except.ok host_val
            else Except.error (Error.HostNotAllowed host_val)
          cache := some (cap, entries2) }
      | (none, entries2) =>
        let host_allowed := layer.matchers.any (fun m => m host_val)
        { extensionHost := if host_allowed then some host_val else none
          result :=
            if host_allowed then Except.ok host_val
            else Except.error (Error.HostNotAllowed host_val)
          cache := some (cap, lruPut cap entries2 host_val host_allowed) }
    | none =>
      let host_allowed := layer.matchers.any (fun m => m host_val)
      { extensionHost := if host_allowed then some host_val else none
        result :=
          if host_allowed then Except.ok host_val
          else Except.error (Error.HostNotAllowed host_val)
        cache := none }
  | none =>
    { extensionHost := none
      result := Except.error Error.FailedToResolveHost
      cache := cache }

/-- Process a request sequence through one service, threading the cache. -/
def runSeq (layer : Layer) (cache : CacheState) :
    List Request → List (Except Error String)
  | [] => []
  | r :: rs =>
    let t := call layer cache r
    t.result :: runSeq layer t.cache rs

/-- The host, if any, an outcome forwards to the inner service. -/
def outcomeHost : Except Error String → Option String
  | Except.ok h => some h
  | Except.error _ => none

/-! ## The older pipeline (`src/lib.rs`) -/

/-- Translation of `get_forwarded_hosts` from `lib.rs`: first `Forwarded` header only,
first comma-entry only, first `host=` parameter of that entry. -/
def lib_get_forwarded_hosts (headers : HeaderMap) : Option String :=
  match (getFirst headers "forwarded").bind headerValueToStr with
  | none => none
  | some forwarded_values =>
    match sSplit forwarded_values ',' with
    | [] => none
    | first_value :: _ =>
      (sSplit first_value ';').findSome? (fun pair =>
        match splitOnce pair '=' with
        | some (key, value) =>
          if sLower (sTrim key) == "host" then
            some (trimQuotes (sTrim value))
          else none
        | none => none)

/-- Translation of `get_host` from `lib.rs`: `Forwarded` (when enabled), `X-Forwarded-Host`
(when enabled), `Host`, then the request URI's host. -/
def lib_get_host (headers : HeaderMap) (uriHost : Option String)
    (use_forwarded use_x_forwarded_host : Bool) : Option String :=
  match (if use_forwarded then lib_get_forwarded_hosts headers else none) with
  | some host => some host
  | none =>
    match (if use_x_forwarded_host then
        (getFirst headers "x-forwarded-host").bind headerValueToStr
      else none) with
    | some host => some host
    | none =>
      match (getFirst headers "host").bind headerValueToStr with
      | some host => some host
      | none => uriHost

/-- Translation of `is_domain_allowed` from `lib.rs` (without the `regex` feature list). -/
def is_domain_allowed (allowed_hosts : List String) (host : String) : Bool :=
  allowed_hosts.any (fun allowed_host => allowed_host == host)

/-! ## Spec-modelled parts

Two pieces of behaviour the spec describes are not implemented anywhere under
`src/`: wiring a `KeyValueMatcher` trust matcher into `Forwarded` extraction
(the trait is only declared in `matcher.rs`), and protocol-version handling
of the `:authority` pseudo-header (`error.rs` only declares the error
variants).  They are modelled here from the spec's words. -/

/-- Modelled from the spec: the key/value mapping of one `Forwarded` entry —
`src/` never builds this mapping (no code passes entry parameters to a
`KeyValueMatcher`).  Per spec §4.2 step 1 and §3 (`ForwardedEntry`): split the
entry on `;` into `key=value` pairs, keys lower-cased, values trimmed and
unquoted, a later duplicate key overwriting an earlier one. -/
def forwardedEntryPairs (entry : String) : List (String × String) :=
  (sSplit entry ';').foldl
    (fun acc part =>
      match splitOnce part '=' with
      | some (key, value) =>
        let k := sLower (sTrim key)
        let v := trimQuotes (sTrim value)
        acc.filter (fun p => !(p.1 == k)) ++ [(k, v)]
      | none => acc)
    []

/-- Look up a key in an entry's parameter mapping. -/
def lookupPair (pairs : List (String × String)) (k : String) :
    Option String :=
  (pairs.find? (fun p => p.1 == k)).map (·.2)

/-- Modelled from the spec: trusted `Forwarded` host collection — `src/`'s
`extract_from_forwarded` accepts every `host=` parameter and consults no
trust matcher.  Per spec §4.2 step 1: for each comma-separated entry of each
header value that contains a `host` parameter, accept the entry's host only
when the configured trust matcher matches that entry's full parameter
mapping (accept unconditionally when no matcher is configured). -/
def collectTrustedForwarded (headerStrs : List String)
    (trust : Option KVMatcher) : List String :=
  headerStrs.flatMap (fun s =>
    (sSplit s ',').filterMap (fun entry =>
      let pairs := forwardedEntryPairs entry
      match lookupPair pairs "host" with
      | some host =>
        match trust with
        | some matcher => if matcher pairs then some host else none
        | none => some host
      | none => none))

/-- Modelled from the spec: `Forwarded` extraction with a trust matcher,
absent from `src/` — the collected trusted hosts fed through the same
multiplicity and validity policy as the untrusted extractor. -/
def extract_from_forwarded_trusted (headers : HeaderMap)
    (trust : Option KVMatcher) (reject_multiple : Bool) : Option String :=
  match decodeAll (getAll headers "forwarded") with
  | none => none
  | some strs =>
    validate_and_parse_hosts (collectTrustedForwarded strs trust)
      reject_multiple

/-- Protocol versions, `http::Version`. -/
inductive HttpVersion where
  | http09
  | http10
  | http11
  | http2
  | http3
  | other
deriving DecidableEq, Repr

/-- Modelled from the spec: protocol-version handling of the `:authority`
pseudo-header — `src/`'s `get_authority` never inspects the version and
nothing under `src/` produces `MissingAuthority`, `MismatchAuthorityHost`,
`MissingHost` or `UnsupportedHttpVersion` (they are only declared in
`error.rs`).  Per spec §4.2 steps 4–6: for HTTP/2 and HTTP/3 the
`:authority` pseudo-header is canonical, a present `Host` header must equal
it exactly (else `MismatchAuthorityHost`), and its absence is
`MissingAuthority`; for HTTP/1.x and earlier a missing `Host` is
`MissingHost`; any other version is `UnsupportedHttpVersion`. -/
def canonicalAuthority (version : HttpVersion) (authority : Option String)
    (hostHeader : Option String) : Except Error String :=
  match version with
  | HttpVersion.http2 | HttpVersion.http3 =>
    match authority with
    | none => Except.error Error.MissingAuthority
    | some a =>
      match hostHeader with
      | some h =>
        if h == a then Except.ok a
        else Except.error Error.MismatchAuthorityHost
      | none => Except.ok a
  | HttpVersion.http09 | HttpVersion.http10 | HttpVersion.http11 =>
    match hostHeader with
    | some h => Except.ok h
    | none => Except.error Error.MissingHost
  | HttpVersion.other => Except.error Error.UnsupportedHttpVersion

/-! ## Helper lemmas -/

/-- If some header value cannot be decoded, the whole decode pass fails
(the Rust `to_str().ok()?` aborts the extractor). -/
theorem decodeAll_eq_none_of_mem {vs : List (List Nat)} {v : List Nat}
    (hv : v ∈ vs) (hbad : headerValueToStr v = none) :
    decodeAll vs = none := by
  induction vs with
  | nil => cases hv
  | cons w ws ih =>
    rcases List.mem_cons.mp hv with rfl | hmem
    · simp [decodeAll, hbad]
    · simp only [decodeAll]
      cases headerValueToStr w with
      | none => rfl
      | some s => rw [ih hmem]; rfl

deriving instance DecidableEq for Except

/-- Unfolding of `getAll` on a cons cell. -/
theorem getAll_cons (n : String) (v : List Nat) (rest : HeaderMap)
    (name : String) :
    getAll ((n, v) :: rest) name =
      if sLower n == sLower name then v :: getAll rest name
      else getAll rest name := by
  simp only [getAll, List.filter_cons]
  split
  · rfl
  · rfl

/-- A `call` without a cache leaves the cache field empty. -/
theorem call_cache_none (layer : Layer) (req : Request) :
    (call layer none req).cache = none := by
  cases hga : get_authority req.headers layer <;> simp [call, hga]

/-! ## Claims -/

/-- Claim C2 (spec-modelled): for HTTP/2 and HTTP/3 the `:authority`
pseudo-header is the canonical source — its absence fails with
`MissingAuthority`, a present `Host` header differing from it fails with
`MismatchAuthorityHost`, and otherwise the `:authority` value is taken. -/
theorem c2_http2_authority (v : HttpVersion) (auth hostHeader : Option String)
    (hv : v = HttpVersion.http2 ∨ v = HttpVersion.http3) :
    (auth = none →
      canonicalAuthority v auth hostHeader = Except.error Error.MissingAuthority)
    ∧ (∀ a h, auth = some a → hostHeader = some h → h ≠ a →
      canonicalAuthority v auth hostHeader =
        Except.error Error.MismatchAuthorityHost)
    ∧ (∀ a, auth = some a → (hostHeader = none ∨ hostHeader = some a) →
      canonicalAuthority v auth hostHeader = Except.ok a) := by
  have step : ∀ (v2 : HttpVersion), v2 = HttpVersion.http2 ∨ v2 = HttpVersion.http3 →
      ∀ (au ho : Option String),
        canonicalAuthority v2 au ho =
          match au with
          | none => Except.error Error.MissingAuthority
          | some a =>
            match ho with
            | some h =>
              if h == a then Except.ok a
              else Except.error Error.MismatchAuthorityHost
            | none => Except.ok a := by
    rintro v2 (rfl | rfl) au ho <;> rfl
  refine ⟨?_, ?_, ?_⟩
  · rintro rfl
    rw [step v hv]
  · rintro a h rfl rfl hne
    rw [step v hv]
    simp [hne]
  · rintro a rfl (rfl | rfl)
    · rw [step v hv]
    · rw [step v hv]
      simp

/-- Witness for C2 at concrete inputs: missing `:authority`, a mismatched
`Host`, and a matching pair. -/
theorem c2_http2_authority_witness :
    canonicalAuthority HttpVersion.http2 none (some "example.org") =
      Except.error Error.MissingAuthority
    ∧ canonicalAuthority HttpVersion.http2 (some "example.com")
        (some "example.org") = Except.error Error.MismatchAuthorityHost
    ∧ canonicalAuthority HttpVersion.http3 (some "example.com") none =
      Except.ok "example.com" :=
  ⟨(c2_http2_authority HttpVersion.http2 none (some "example.org")
      (Or.inl rfl)).1 rfl,
    (c2_http2_authority HttpVersion.http2 (some "example.com")
      (some "example.org") (Or.inl rfl)).2.1 "example.com" "example.org"
      rfl rfl (by decide),
    (c2_http2_authority HttpVersion.http3 (some "example.com") none
      (Or.inr rfl)).2.2 "example.com" rfl (Or.inl rfl)⟩

/-- Claim C6: with `use_forwarded` enabled, a host accepted from the
`Forwarded` header wins over whatever the other headers carry, in both the
current (`service.rs`) and the older (`lib.rs`) pipeline. -/
theorem c6_forwarded_priority :
    (∀ (layer : Layer) (headers : HeaderMap) (a : String),
      layer.use_forwarded = true →
      extract_from_forwarded headers layer.reject_multiple_hosts = some a →
      get_authority headers layer = some a)
    ∧ (∀ (headers : HeaderMap) (uriHost : Option String) (use_x : Bool)
        (b : String),
      lib_get_forwarded_hosts headers = some b →
      lib_get_host headers uriHost true use_x = some b) := by
  constructor
  · intro layer headers a huf hext
    simp [get_authority, huf, hext]
  · intro headers uriHost use_x b hfwd
    simp [lib_get_host, hfwd]

/-- Witness for C6: both `Forwarded` and `Host` headers are present and the
resolved authority is the `Forwarded` one. -/
theorem c6_forwarded_priority_witness :
    get_authority
      [("forwarded", strBytes "host=fwd.example"),
        ("host", strBytes "host.example")]
      ⟨[anyValue], true, false, false⟩ = some "fwd.example"
    ∧ lib_get_host
      [("forwarded", strBytes "host=fwd.example"),
        ("host", strBytes "host.example")] none true false =
      some "fwd.example" :=
  ⟨c6_forwarded_priority.1 ⟨[anyValue], true, false, false⟩
      [("forwarded", strBytes "host=fwd.example"),
        ("host", strBytes "host.example")] "fwd.example" rfl (by decide),
    c6_forwarded_priority.2
      [("forwarded", strBytes "host=fwd.example"),
        ("host", strBytes "host.example")] none false "fwd.example"
      (by decide)⟩

/-- Claim C7: the allow decision for a resolved authority is true iff some
matcher in the configured list matches it (logical OR); the empty list never
allows.  The same holds of `lib.rs`'s `is_domain_allowed`. -/
theorem c7_allow_iff_any_matcher :
    (∀ (layer : Layer) (req : Request) (a : String),
      get_authority req.headers layer = some a →
      (((call layer none req).result = Except.ok a) ↔
        ∃ m ∈ layer.matchers, m a = true)
      ∧ (layer.matchers = [] →
        (call layer none req).result =
          Except.error (Error.HostNotAllowed a)))
    ∧ (∀ (allowed_hosts : List String) (host : String),
      is_domain_allowed allowed_hosts host = true ↔
        ∃ x ∈ allowed_hosts, x = host) := by
  constructor
  · intro layer req a hga
    have hcall : (call layer none req).result =
        if layer.matchers.any (fun m => m a) then Except.ok a
        else Except.error (Error.HostNotAllowed a) := by
      simp [call, hga]
    constructor
    · rw [hcall]
      cases hany : layer.matchers.any (fun m => m a) with
      | true =>
        rw [if_pos rfl]
        simp only [List.any_eq_true] at hany
        exact iff_of_true rfl hany
      | false =>
        rw [if_neg (by simp)]
        constructor
        · intro h
          simp at h
        · intro hex
          rw [← List.any_eq_true, hany] at hex
          exact absurd hex (by simp)
    · intro hm
      rw [hcall, hm]
      simp
  · intro allowed_hosts host
    simp [is_domain_allowed, List.any_eq_true]

/-- Witness for C7: with an empty matcher list the resolved host is blocked,
and with a matching exact matcher it is allowed. -/
theorem c7_allow_iff_any_matcher_witness :
    (call ⟨[], false, false, false⟩ none
      ⟨[("host", strBytes "a.com")]⟩).result =
      Except.error (Error.HostNotAllowed "a.com")
    ∧ is_domain_allowed ["a.com"] "a.com" = true :=
  ⟨(c7_allow_iff_any_matcher.1 ⟨[], false, false, false⟩
      ⟨[("host", strBytes "a.com")]⟩ "a.com" (by decide)).2 rfl,
    (c7_allow_iff_any_matcher.2 ["a.com"] "a.com").mpr
      ⟨"a.com", by simp, rfl⟩⟩

/-- Claim C10: the `Host` extension is inserted into the request exactly when
the call forwards to the inner service (the authority resolved and was
allowed, freshly or from the cache), and carries that same authority. -/
theorem c10_extension_insertion (layer : Layer) (cache : CacheState)
    (req : Request) :
    (call layer cache req).extensionHost =
      outcomeHost (call layer cache req).result := by
  cases hga : get_authority req.headers layer with
  | none => simp [call, hga, outcomeHost]
  | some host =>
    cases cache with
    | none =>
      cases hany : layer.matchers.any (fun m => m host) <;>
        simp [call, hga, hany, outcomeHost]
    | some capEntries =>
      obtain ⟨cap, entries⟩ := capEntries
      cases hfind : entries.find? (fun e => e.1 == host) with
      | none =>
        cases hany : layer.matchers.any (fun m => m host) <;>
          simp [call, hga, lruGet, hfind, hany, outcomeHost]
      | some e =>
        cases he : e.2 <;>
          simp [call, hga, lruGet, hfind, he, outcomeHost]

/-- Claim C1 (spec-modelled): with a trust matcher configured, a host is
collected from the `Forwarded` entries exactly when some entry's parameter
mapping both carries it as its `host` parameter and is matched in full by the
trust matcher; entries the matcher rejects contribute no candidate, and the
trusted extractor feeds exactly this collection into validation. -/
theorem c1_trusted_forwarded_hosts (matcher : KVMatcher) :
    (∀ (strs : List String) (h : String),
      h ∈ collectTrustedForwarded strs (some matcher) ↔
        ∃ s ∈ strs, ∃ entry ∈ sSplit s ',',
          lookupPair (forwardedEntryPairs entry) "host" = some h ∧
          matcher (forwardedEntryPairs entry) = true)
    ∧ (∀ (headers : HeaderMap) (reject : Bool) (strs : List String),
      decodeAll (getAll headers "forwarded") = some strs →
      extract_from_forwarded_trusted headers (some matcher) reject =
        validate_and_parse_hosts (collectTrustedForwarded strs (some matcher))
          reject) := by
  constructor
  · intro strs h
    unfold collectTrustedForwarded
    rw [List.mem_flatMap]
    constructor
    · rintro ⟨s, hs, hmem⟩
      rw [List.mem_filterMap] at hmem
      obtain ⟨entry, hentry, hsome⟩ := hmem
      refine ⟨s, hs, entry, hentry, ?_⟩
      cases hl : lookupPair (forwardedEntryPairs entry) "host" with
      | none => simp [hl] at hsome
      | some host =>
        simp only [hl] at hsome
        by_cases hm : matcher (forwardedEntryPairs entry) = true
        · rw [if_pos hm] at hsome
          have hh : host = h := by simpa using hsome
          exact ⟨by rw [hh], hm⟩
        · rw [if_neg hm] at hsome
          cases hsome
    · rintro ⟨s, hs, entry, hentry, hl, hm⟩
      exact ⟨s, hs, List.mem_filterMap.mpr ⟨entry, hentry, by simp [hl, hm]⟩⟩
  · intro headers reject strs hdec
    simp [extract_from_forwarded_trusted, hdec]

/-- Witness for C1, the spec's Scenario 4: the signature-matching entry's
host is collected, while an entry with a wrong signature contributes
nothing. -/
theorem c1_trusted_forwarded_hosts_witness :
    "127.0.0.1" ∈
      collectTrustedForwarded
        ["for=1.2.3.4;by=1.2.3.5;host=127.0.0.1;signature=random_value"]
        (some (pairKeyValue (exactValue "signature")
          (exactValue "random_value")))
    ∧ ¬ "127.0.0.2" ∈
      collectTrustedForwarded ["for=1.2.3.4;host=127.0.0.2;signature=bad"]
        (some (pairKeyValue (exactValue "signature")
          (exactValue "random_value"))) :=
  ⟨((c1_trusted_forwarded_hosts
      (pairKeyValue (exactValue "signature") (exactValue "random_value"))).1
      ["for=1.2.3.4;by=1.2.3.5;host=127.0.0.1;signature=random_value"]
      "127.0.0.1").mpr
      ⟨"for=1.2.3.4;by=1.2.3.5;host=127.0.0.1;signature=random_value",
        by simp,
        "for=1.2.3.4;by=1.2.3.5;host=127.0.0.1;signature=random_value",
        by decide, by decide, by decide⟩,
    fun hmem => by
      have := ((c1_trusted_forwarded_hosts
          (pairKeyValue (exactValue "signature")
            (exactValue "random_value"))).1
          ["for=1.2.3.4;host=127.0.0.2;signature=bad"] "127.0.0.2").mp hmem
      revert this
      decide⟩

/-- A decision cache is consistent with a matcher list when every cached
boolean equals the fresh evaluation of the matchers on its key. -/
def cacheConsistent (layer : Layer) (entries : List (String × Bool)) : Prop :=
  ∀ e ∈ entries, e.2 = layer.matchers.any (fun m => m e.1)

/-- One call against a consistent cache produces the cache-free result and
leaves the cache consistent. -/
theorem call_consistent_cache (layer : Layer) (cap : Nat)
    (entries : List (String × Bool)) (req : Request)
    (hc : cacheConsistent layer entries) :
    (call layer (some (cap, entries)) req).result =
      (call layer none req).result
    ∧ ∃ cap2 entries2,
      (call layer (some (cap, entries)) req).cache = some (cap2, entries2) ∧
      cacheConsistent layer entries2 := by
  cases hga : get_authority req.headers layer with
  | none =>
    refine ⟨by simp [call, hga], cap, entries, by simp [call, hga], hc⟩
  | some host =>
    cases hfind : entries.find? (fun e => e.1 == host) with
    | none =>
      refine ⟨by simp [call, hga, lruGet, hfind], cap,
        lruPut cap entries host (layer.matchers.any (fun m => m host)),
        by simp [call, hga, lruGet, hfind], ?_⟩
      intro e he
      simp only [lruPut] at he
      have he2 := List.take_subset _ _ he
      rcases List.mem_cons.mp he2 with rfl | hmem
      · rfl
      · exact hc e (List.mem_filter.mp hmem).1
    | some e =>
      have hmem := List.mem_of_find?_eq_some hfind
      have hpe := List.find?_some hfind
      have he1 : e.1 = host := by simpa using hpe
      have he2 : e.2 = layer.matchers.any (fun m => m host) := by
        rw [← he1]
        exact hc e hmem
      constructor
      · simp only [call, hga, lruGet, hfind]
        rw [he2]
      · refine ⟨cap, (host, e.2) :: entries.filter (fun e2 => !(e2.1 == host)),
          by simp [call, hga, lruGet, hfind], ?_⟩
        intro x hx
        rcases List.mem_cons.mp hx with rfl | hmemx
        · exact he2
        · exact hc x (List.mem_filter.mp hmemx).1

/-- Claim C8: over any request sequence handled from a fresh cache by an
unchanged layer, enabling the decision cache (any capacity) produces exactly
the decisions of the cache-free service. -/
theorem c8_cache_transparent (layer : Layer) (cap : Nat)
    (reqs : List Request) :
    runSeq layer (some (cap, [])) reqs = runSeq layer none reqs := by
  have key : ∀ (rs : List Request) (cap2 : Nat)
      (entries : List (String × Bool)),
      cacheConsistent layer entries →
      runSeq layer (some (cap2, entries)) rs = runSeq layer none rs := by
    intro rs
    induction rs with
    | nil => intro _ _ _; rfl
    | cons r rest ih =>
      intro cap2 entries hc
      obtain ⟨hres, cap3, entries3, hcache, hc3⟩ :=
        call_consistent_cache layer cap2 entries r hc
      simp only [runSeq, hres, hcache, call_cache_none]
      rw [ih cap3 entries3 hc3]
  exact key reqs cap [] (fun e he => absurd he (List.not_mem_nil e))

/-- The displayed path is never the empty string. -/
theorem uriPath_ne_empty (u : Uri) : uriPath u ≠ "" := by
  unfold uriPath
  by_cases hp : u.path = ""
  · rw [if_pos hp]
    decide
  · rw [if_neg hp]
    exact hp

/-- Splitting a list around an occurrence of the separator yields at least
two pieces. -/
theorem two_le_splitChar_length (c : Char) (l1 l2 : List Char) :
    2 ≤ (splitChar c (l1 ++ c :: l2)).length := by
  induction l1 with
  | nil =>
    have heq : splitChar c (c :: l2) = [] :: splitChar c l2 := by
      simp [splitChar]
    have h1 : 0 < (splitChar c l2).length :=
      List.length_pos.mpr (splitChar_ne_nil c l2)
    rw [List.nil_append, heq, List.length_cons]
    omega
  | cons x xs ih =>
    by_cases hx : x = c
    · subst hx
      have heq : splitChar x ((x :: xs) ++ x :: l2) =
          [] :: splitChar x (xs ++ x :: l2) := by
        simp [splitChar]
      have h1 : 0 < (splitChar x (xs ++ x :: l2)).length :=
        List.length_pos.mpr (splitChar_ne_nil x (xs ++ x :: l2))
      rw [heq, List.length_cons]
      omega
    · cases hr : splitChar c (xs ++ c :: l2) with
      | nil => exact absurd hr (splitChar_ne_nil c _)
      | cons y ys =>
        have heq : splitChar c ((x :: xs) ++ c :: l2) = (x :: y) :: ys := by
          simp [splitChar, hx, hr]
        rw [hr] at ih
        rw [heq]
        simpa using ih

/-- A list of length at least two starts with two elements. -/
theorem exists_cons_cons_of_two_le {α : Type} (l : List α)
    (h : 2 ≤ l.length) : ∃ x y rest, l = x :: y :: rest := by
  match l with
  | [] => simp at h
  | [x] => simp at h
  | x :: y :: rest => exact ⟨x, y, rest, rfl⟩

/-- The comma-split host list of a header string is never empty. -/
theorem hostListOfStr_ne_nil (s : String) : hostListOfStr s ≠ [] := by
  simp only [hostListOfStr, ne_eq, List.map_eq_nil_iff]
  exact sSplit_ne_nil s ','

/-- With `reject_multiple` set, any host list with a second element is
rejected outright. -/
theorem validate_reject_multiple (a : String) (l : List String)
    (hl : l ≠ []) : validate_and_parse_hosts (a :: l) true = none := by
  simp only [validate_and_parse_hosts, Bool.true_and]
  rw [if_pos]
  simp [hl]

/-- Claim C3 (corrected): validation rejects any selected candidate that
carries a scheme, a real path, a query, or user-info, and only a bare
authority is accepted — but the rejection surfaces as `FailedToResolveHost`
(the extractor yields no host), not as an `InvalidHost` error. -/
theorem c3_bare_authority_validation :
    (∀ (first : String) (rest : List String) (reject : Bool) (uri : Uri),
      parseUri first = some uri →
      (uri.scheme.isSome = true ∨ (uriQuery uri).isSome = true ∨
        (uriPath uri ≠ "/" ∧ uriPath uri ≠ "") ∨
        (∃ a, uri.authority = some a ∧ sContains a '@' = true)) →
      validate_and_parse_hosts (first :: rest) reject = none)
    ∧ (∀ (hosts : List String) (reject : Bool) (a : String),
      validate_and_parse_hosts hosts reject = some a →
      ∃ first rest uri, hosts = first :: rest ∧ parseUri first = some uri ∧
        uri.authority = some a ∧ uri.scheme = none ∧ uriQuery uri = none ∧
        uriPath uri = "/" ∧ sContains a '@' = false)
    ∧ (∀ (layer : Layer) (req : Request),
      get_authority req.headers layer = none →
      (call layer none req).result = Except.error Error.FailedToResolveHost) := by
  refine ⟨?_, ?_, ?_⟩
  · intro first rest reject uri hparse hbad
    simp only [validate_and_parse_hosts]
    by_cases hrm : (reject && !rest.isEmpty) = true
    · rw [if_pos hrm]
    · rw [if_neg hrm]
      simp only [hparse]
      by_cases hcond : ((uriPath uri != "/" && !(uriPath uri == "")) ||
          (uriQuery uri).isSome || uri.scheme.isSome) = true
      · rw [if_pos hcond]
      · rw [if_neg hcond]
        rcases hbad with hs | hq | hp | ⟨a, ha, hat⟩
        · exact absurd (by simp [hs]) hcond
        · exact absurd (by simp [hq]) hcond
        · exact absurd (by simp [hp.1, hp.2]) hcond
        · simp only [ha]
          rw [if_pos hat]
  · intro hosts reject a hval
    cases hosts with
    | nil => simp [validate_and_parse_hosts] at hval
    | cons first rest =>
      simp only [validate_and_parse_hosts] at hval
      by_cases hrm : (reject && !rest.isEmpty) = true
      · rw [if_pos hrm] at hval
        cases hval
      · rw [if_neg hrm] at hval
        cases hparse : parseUri first with
        | none => simp [hparse] at hval
        | some uri =>
          simp only [hparse] at hval
          by_cases hcond : ((uriPath uri != "/" && !(uriPath uri == "")) ||
              (uriQuery uri).isSome || uri.scheme.isSome) = true
          · rw [if_pos hcond] at hval
            cases hval
          · rw [if_neg hcond] at hval
            simp only [Bool.or_eq_true, not_or, Bool.not_eq_true] at hcond
            obtain ⟨⟨hpath, hq⟩, hs⟩ := hcond
            cases hauth : uri.authority with
            | none =>
              simp [hauth] at hval
            | some auth =>
              simp only [hauth] at hval
              by_cases hat : sContains auth '@' = true
              · rw [if_pos hat] at hval
                cases hval
              · rw [if_neg hat] at hval
                have hae : auth = a := by simpa using hval
                subst hae
                have hslash : uriPath uri = "/" := by
                  by_cases h1 : uriPath uri = "/"
                  · exact h1
                  · exfalso
                    have h2 : (uriPath uri != "/") = true := by
                      simpa using h1
                    have h3 : (uriPath uri == "") = false := by
                      simpa using uriPath_ne_empty uri
                    rw [h2, h3] at hpath
                    simp at hpath
                refine ⟨first, rest, uri, rfl, hparse, hauth, ?_, ?_,
                  hslash, by simpa using hat⟩
                · exact Option.not_isSome_iff_eq_none.mp (by simp [hs])
                · exact Option.not_isSome_iff_eq_none.mp (by simp [hq])
  · intro layer req hga
    simp [call, hga]

/-- Counterexample for C3 as stated: a `Host` value carrying a scheme is
rejected, but with `FailedToResolveHost` — never with `InvalidHost`. -/
theorem c3_invalid_host_counterexample :
    (call ⟨[exactValue "example.com"], false, false, false⟩ none
      ⟨[("host", strBytes "http://example.com")]⟩).result =
      Except.error Error.FailedToResolveHost
    ∧ (call ⟨[exactValue "example.com"], false, false, false⟩ none
      ⟨[("host", strBytes "http://example.com")]⟩).result ≠
      Except.error Error.InvalidHost := by
  decide

/-- Witness for C3 at concrete inputs: a scheme-carrying candidate is
rejected by validation, and an unresolvable request fails with
`FailedToResolveHost`. -/
theorem c3_bare_authority_validation_witness :
    validate_and_parse_hosts ["http://example.com"] false = none
    ∧ (call ⟨[anyValue], false, false, false⟩ none ⟨[]⟩).result =
      Except.error Error.FailedToResolveHost :=
  ⟨c3_bare_authority_validation.1 "http://example.com" [] false
      ⟨some "http", some "example.com", "", none⟩ (by decide)
      (Or.inl (by decide)),
    c3_bare_authority_validation.2.2 ⟨[anyValue], false, false, false⟩
      ⟨[]⟩ (by decide)⟩

/-- Claim C4 (corrected): with `reject_multiple_hosts` enabled, two host
values — comma-separated inside one `Host` header or spread across two
`Host` header instances — make extraction yield nothing, so the request
fails, but with `FailedToResolveHost`, not `MultipleHostHeader`. -/
theorem c4_multiple_hosts_rejected :
    (∀ (M : List ValueMatcher) (v : List Nat) (s1 s2 : String),
      headerValueToStr v = some (s1 ++ "," ++ s2) →
      (call ⟨M, false, false, true⟩ none ⟨[("host", v)]⟩).result =
        Except.error Error.FailedToResolveHost)
    ∧ (∀ (M : List ValueMatcher) (v1 v2 : List Nat) (s1 s2 : String),
      headerValueToStr v1 = some s1 → headerValueToStr v2 = some s2 →
      (call ⟨M, false, false, true⟩ none
        ⟨[("host", v1), ("host", v2)]⟩).result =
        Except.error Error.FailedToResolveHost) := by
  constructor
  · intro M v s1 s2 hv
    have hcollect : getAll [("host", v)] "host" = [v] := by
      rw [getAll_cons, if_pos (by decide)]
      rfl
    have hga : get_authority [("host", v)] ⟨M, false, false, true⟩ = none := by
      simp only [get_authority]
      simp only [extract_from_host, hcollect, decodeAll, hv]
      have hflat : [s1 ++ "," ++ s2].flatMap hostListOfStr =
          hostListOfStr (s1 ++ "," ++ s2) := by simp
      have hlen : 2 ≤ (hostListOfStr (s1 ++ "," ++ s2)).length := by
        simp only [hostListOfStr, sSplit, List.length_map]
        have htl : (s1 ++ "," ++ s2).toList =
            s1.toList ++ ',' :: s2.toList := by
          simp [String.toList]
        rw [htl]
        exact two_le_splitChar_length ',' s1.toList s2.toList
      obtain ⟨x, y, rest, hxy⟩ :=
        exists_cons_cons_of_two_le _ hlen
      simp [hflat, hxy]
      exact validate_reject_multiple x (y :: rest) (by simp)
    simp [call, hga]
  · intro M v1 v2 s1 s2 hv1 hv2
    have hcollect : getAll [("host", v1), ("host", v2)] "host" = [v1, v2] := by
      rw [getAll_cons, if_pos (by decide), getAll_cons, if_pos (by decide)]
      rfl
    have hga : get_authority [("host", v1), ("host", v2)]
        ⟨M, false, false, true⟩ = none := by
      simp only [get_authority]
      simp only [extract_from_host, hcollect, decodeAll, hv1, hv2]
      obtain ⟨x, t1, hx⟩ := List.exists_cons_of_ne_nil (hostListOfStr_ne_nil s1)
      simp [hx]
      exact validate_reject_multiple x
        (t1 ++ hostListOfStr s2) (by simp [hostListOfStr_ne_nil s2])
    simp [call, hga]

/-- Counterexample for C4 as stated: two `Host` header instances with
`reject_multiple_hosts` enabled fail with `FailedToResolveHost` — never with
`MultipleHostHeader`. -/
theorem c4_multiple_host_counterexample :
    (call ⟨[exactValue "a.com"], false, false, true⟩ none
      ⟨[("host", strBytes "a.com"), ("host", strBytes "b.com")]⟩).result =
      Except.error Error.FailedToResolveHost
    ∧ (call ⟨[exactValue "a.com"], false, false, true⟩ none
      ⟨[("host", strBytes "a.com"), ("host", strBytes "b.com")]⟩).result ≠
      Except.error Error.MultipleHostHeader := by
  decide

/-- Witness for C4 at a concrete input: one `Host` header with two
comma-separated values is rejected. -/
theorem c4_multiple_hosts_rejected_witness :
    (call ⟨[exactValue "a.com"], false, false, true⟩ none
      ⟨[("host", strBytes "a.com,b.com")]⟩).result =
      Except.error Error.FailedToResolveHost :=
  c4_multiple_hosts_rejected.1 [exactValue "a.com"]
    (strBytes "a.com,b.com") "a.com" "b.com" (by decide)

/-- Claim C5 (code bug): `service.rs` documents that determined hosts are
always lowercase, but the resolved authority keeps the header's original
case, so an uppercase `Host` value is matched as-is against the (lowercase)
allow-list and blocked, although its lowercase form would have matched. -/
theorem c5_lowercase_code_bug :
    get_authority [("host", strBytes "EXAMPLE.COM")]
      ⟨[exactValue "example.com"], false, false, false⟩ =
      some "EXAMPLE.COM"
    ∧ sLower "EXAMPLE.COM" ≠ "EXAMPLE.COM"
    ∧ (call ⟨[exactValue "example.com"], false, false, false⟩ none
      ⟨[("host", strBytes "EXAMPLE.COM")]⟩).result =
      Except.error (Error.HostNotAllowed "EXAMPLE.COM")
    ∧ exactValue "example.com" (sLower "EXAMPLE.COM") = true := by
  decide

/-- Claim C9 (corrected): undecodable header bytes make the producing
extractor yield nothing — `Forwarded` and `X-Forwarded-Host` extraction fall
through to the later sources (and may succeed there), and a `Host` header
with such bytes leaves the request failing with `FailedToResolveHost`; no
`InvalidHost` or `InvalidForwardedHeader` error is raised. -/
theorem c9_invalid_bytes_fallthrough :
    (∀ (headers : HeaderMap) (reject : Bool) (v : List Nat),
      v ∈ getAll headers "forwarded" → headerValueToStr v = none →
      extract_from_forwarded headers reject = none)
    ∧ (∀ (headers : HeaderMap) (reject : Bool) (v : List Nat),
      v ∈ getAll headers "x-forwarded-host" → headerValueToStr v = none →
      extract_from_x_forwarded_host headers reject = none)
    ∧ (∀ (headers : HeaderMap) (reject : Bool) (v : List Nat),
      v ∈ getAll headers "host" → headerValueToStr v = none →
      extract_from_host headers reject = none)
    ∧ (∀ (headers : HeaderMap) (layer : Layer),
      extract_from_forwarded headers layer.reject_multiple_hosts = none →
      extract_from_x_forwarded_host headers layer.reject_multiple_hosts =
        none →
      get_authority headers layer =
        extract_from_host headers layer.reject_multiple_hosts)
    ∧ (∀ (layer : Layer) (req : Request),
      get_authority req.headers layer = none →
      (call layer none req).result =
        Except.error Error.FailedToResolveHost) := by
  refine ⟨?_, ?_, ?_, ?_, ?_⟩
  · intro headers reject v hmem hbad
    simp [extract_from_forwarded, decodeAll_eq_none_of_mem hmem hbad]
  · intro headers reject v hmem hbad
    simp [extract_from_x_forwarded_host, decodeAll_eq_none_of_mem hmem hbad]
  · intro headers reject v hmem hbad
    simp [extract_from_host, decodeAll_eq_none_of_mem hmem hbad]
  · intro headers layer hfwd hx
    simp only [get_authority]
    cases huf : layer.use_forwarded <;>
      cases hux : layer.use_x_forwarded_host <;>
        simp [huf, hux, hfwd, hx]
  · intro layer req hga
    simp [call, hga]

/-- Counterexample for C9 as stated: a `Forwarded` (or `X-Forwarded-Host`)
header with invalid bytes does not fail the request — resolution succeeds
via the `Host` header; and a `Host` header with invalid bytes fails with
`FailedToResolveHost`, not `InvalidHost`. -/
theorem c9_invalid_bytes_counterexample :
    (call ⟨[exactValue "ok.com"], true, false, false⟩ none
      ⟨[("forwarded", [255]), ("host", strBytes "ok.com")]⟩).result =
      Except.ok "ok.com"
    ∧ (call ⟨[exactValue "ok.com"], true, false, false⟩ none
      ⟨[("forwarded", [255]), ("host", strBytes "ok.com")]⟩).result ≠
      Except.error Error.InvalidForwardedHeader
    ∧ (call ⟨[exactValue "ok.com"], false, true, false⟩ none
      ⟨[("x-forwarded-host", [255]), ("host", strBytes "ok.com")]⟩).result =
      Except.ok "ok.com"
    ∧ (call ⟨[exactValue "ok.com"], false, true, false⟩ none
      ⟨[("x-forwarded-host", [255]),
        ("host", strBytes "ok.com")]⟩).result ≠
      Except.error Error.InvalidHost
    ∧ (call ⟨[exactValue "ok.com"], false, false, false⟩ none
      ⟨[("host", [255])]⟩).result =
      Except.error Error.FailedToResolveHost
    ∧ (call ⟨[exactValue "ok.com"], false, false, false⟩ none
      ⟨[("host", [255])]⟩).result ≠ Except.error Error.InvalidHost := by
  decide

/-- Witness for C9 at concrete inputs: an invalid byte in each of the three
headers makes the corresponding extractor yield nothing. -/
theorem c9_invalid_bytes_fallthrough_witness :
    extract_from_forwarded [("forwarded", [255])] false = none
    ∧ extract_from_x_forwarded_host [("x-forwarded-host", [255])] false =
      none
    ∧ extract_from_host [("host", [128])] false = none :=
  ⟨c9_invalid_bytes_fallthrough.1 [("forwarded", [255])] false [255]
      (by decide) (by decide),
    c9_invalid_bytes_fallthrough.2.1 [("x-forwarded-host", [255])] false
      [255] (by decide) (by decide),
    c9_invalid_bytes_fallthrough.2.2.1 [("host", [128])] false [128]
      (by decide) (by decide)⟩

end TowerAllowedHosts
